import Mathlib

/-!
# Verification of the media_file_manager processing pipeline

A shallow embedding, in Lean 4, of the core of the `media_file_manager`
repository: the filename generator (`src/core/file_renamer.py`), the
filename sanitizer and uniqueness resolver (`src/utils/file_utils.py`),
the per-file processing pipeline (`src/core/file_processor.py`), and the
backup store (`src/utils/backup.py`).  The filesystem is modelled
explicitly (association lists from path strings to file records),
exceptions become `Except`/`Option` values, and the external
collaborators that the source treats as oracles (format validator,
metadata codecs, hashing, clock) are passed in as parameters.
-/

set_option autoImplicit false

namespace MediaManager

/-! ## Python path model

`pathlib.Path` values are modelled as a list of leading directory
components together with a final name.  `suffix` and `stem` follow the
CPython implementation: with `i` the index of the last `'.'` in the
name, the suffix is `name[i:]` when `0 < i < len(name) - 1` and empty
otherwise; the stem is the corresponding prefix. -/

/-- Characters after the last `'.'` of the list, when a `'.'` occurs. -/
def afterLastDot : List Char → Option (List Char)
  | [] => none
  | c :: rest =>
    match afterLastDot rest with
    | some s => some s
    | none => if c = '.' then some rest else none

/-- `pathlib` suffix of a file name, on `List Char`.  With `rest` the
characters after the last dot, the dot sits at index
`l.length - rest.length - 1`; the suffix is kept only when that index
is positive (the dot is not the leading character) and `rest` is
nonempty (the dot is not the final character). -/
def pySuffixL (l : List Char) : List Char :=
  match afterLastDot l with
  | some rest =>
    if 0 < l.length - rest.length - 1 ∧ rest ≠ [] then '.' :: rest else []
  | none => []

/-- `pathlib` stem of a file name, on `List Char`: the name with the
suffix removed (the whole name when the suffix is empty). -/
def pyStemL (l : List Char) : List Char :=
  match afterLastDot l with
  | some rest =>
    if 0 < l.length - rest.length - 1 ∧ rest ≠ [] then
      l.take (l.length - rest.length - 1)
    else l
  | none => l

/-- `pathlib` suffix on strings (`Path.suffix`). -/
def pySuffix (s : String) : String := ⟨pySuffixL s.data⟩

/-- `pathlib` stem on strings (`Path.stem`). -/
def pyStem (s : String) : String := ⟨pyStemL s.data⟩

/-- Python `str.lower()` (ASCII case folding suffices for extensions). -/
def pyLower (s : String) : String := ⟨s.data.map Char.toLower⟩

/-- A `pathlib.Path`: leading directory components plus the final name.
`dir` plays the role of `Path.parent`, so `p.parent / n` is
`⟨p.dir, n⟩`. -/
structure PyPath where
  dir : List String
  name : String
deriving DecidableEq, Repr

/-- `str(path)`: components joined by `/`. -/
def PyPath.render (p : PyPath) : String :=
  String.intercalate "/" (p.dir ++ [p.name])

/-- `Path.suffix` of the path. -/
def PyPath.suffix (p : PyPath) : String := pySuffix p.name

/-- `Path.stem` of the path. -/
def PyPath.stem (p : PyPath) : String := pyStem p.name

/-- A nonempty `pathlib` suffix starts with `'.'`. -/
theorem pySuffixL_eq_nil_or_head (l : List Char) :
    pySuffixL l = [] ∨ ∃ rest, pySuffixL l = '.' :: rest := by
  unfold pySuffixL
  cases afterLastDot l with
  | none => exact Or.inl rfl
  | some rest =>
    by_cases h : 0 < l.length - rest.length - 1 ∧ rest ≠ []
    · exact Or.inr ⟨rest, if_pos h⟩
    · exact Or.inl (if_neg h)

/-! ## Injectivity of decimal printing

The uniqueness resolver builds candidate names `f"{stem}_{counter}{suffix}"`;
its termination argument needs distinct counters to print distinctly, i.e.
injectivity of `Nat.repr`.  We relate `Nat.toDigitsCore` (fuel-based) to a
structurally defined digit list and read the number back off the digits. -/

/-- The decimal digit characters of `n`, most significant first. -/
def decDigits (n : Nat) : List Char :=
  if h : n < 10 then [Nat.digitChar n]
  else decDigits (n / 10) ++ [Nat.digitChar (n % 10)]
termination_by n
decreasing_by exact Nat.div_lt_self (by omega) (by omega)

theorem digitChar_toNat (n : Nat) (h : n < 10) : (Nat.digitChar n).toNat = 48 + n := by
  interval_cases n <;> decide

/-- Read a digit-character list back as a number. -/
def decValue (l : List Char) : Nat :=
  l.foldl (fun acc c => acc * 10 + (c.toNat - 48)) 0

theorem decValue_append_singleton (l : List Char) (c : Char) :
    decValue (l ++ [c]) = decValue l * 10 + (c.toNat - 48) := by
  simp [decValue, List.foldl_append]

theorem decValue_decDigits (n : Nat) : decValue (decDigits n) = n := by
  induction n using Nat.strong_induction_on with
  | _ n ih =>
    by_cases h : n < 10
    · rw [decDigits, dif_pos h]
      simp [decValue, digitChar_toNat n h]
    · rw [decDigits, dif_neg h, decValue_append_singleton,
        ih (n / 10) (Nat.div_lt_self (by omega) (by omega)),
        digitChar_toNat (n % 10) (Nat.mod_lt n (by omega))]
      omega

theorem toDigitsCore_eq_decDigits :
    ∀ (f n : Nat) (acc : List Char), 0 < f → n < 10 ^ f →
      Nat.toDigitsCore 10 f n acc = decDigits n ++ acc := by
  intro f
  induction f with
  | zero => intro n acc hf _; exact absurd hf (by omega)
  | succ f ih =>
    intro n acc _ hlt
    by_cases h10 : n < 10
    · have hdiv : n / 10 = 0 := Nat.div_eq_of_lt h10
      rw [decDigits, dif_pos h10]
      simp [Nat.toDigitsCore, hdiv, Nat.mod_eq_of_lt h10]
    · have hdiv : n / 10 ≠ 0 := by
        intro hc
        have := Nat.div_eq_of_lt (show n < 10 by omega) ▸ hc
        omega
      have hf : 0 < f := by
        by_contra hc
        have hf0 : f = 0 := by omega
        subst hf0
        have : n < 10 := by simpa using hlt
        omega
      have hlt' : n / 10 < 10 ^ f := by
        have h1 : n < 10 ^ f * 10 := by
          calc n < 10 ^ (f + 1) := hlt
          _ = 10 ^ f * 10 := by ring
        exact (Nat.div_lt_iff_lt_mul (by omega)).mpr h1
      rw [decDigits, dif_neg h10]
      simp only [Nat.toDigitsCore, if_neg hdiv]
      rw [ih (n / 10) (Nat.digitChar (n % 10) :: acc) hf hlt', List.append_assoc]
      rfl

theorem natRepr_eq_decDigits (n : Nat) : Nat.repr n = ⟨decDigits n⟩ := by
  have hlt : n < 10 ^ (n + 1) := by
    calc n < 10 ^ n := Nat.lt_pow_self (by omega) n
    _ ≤ 10 ^ (n + 1) := Nat.pow_le_pow_right (by omega) (by omega)
  have := toDigitsCore_eq_decDigits (n + 1) n [] (by omega) hlt
  simp only [Nat.repr, Nat.toDigits, this, List.append_nil, List.asString]

theorem natRepr_injective : Function.Injective Nat.repr := by
  intro m n h
  rw [natRepr_eq_decDigits, natRepr_eq_decDigits] at h
  have hd : decDigits m = decDigits n := congrArg String.data h
  calc m = decValue (decDigits m) := (decValue_decDigits m).symm
  _ = decValue (decDigits n) := by rw [hd]
  _ = n := decValue_decDigits n

/-! ## `src/utils/file_utils.py` — sanitizer and uniqueness resolver -/

/-- The invalid-character string `'<|>:"/\\|?*'` from `sanitize_filename`
(the `'|'` occurs twice in the source literal). -/
def invalidChars : List Char := ['<', '|', '>', ':', '"', '/', '\\', '|', '?', '*']

/-- Python `str.replace(a, b)` for single characters. -/
def replaceChar (a b : Char) (l : List Char) : List Char :=
  l.map fun c => if c = a then b else c

/-- The replacement loop `for char in invalid_chars: filename = filename.replace(char, replace_chars)`
with the default `replace_chars = "_"`. -/
def replaceInvalid (l : List Char) : List Char :=
  invalidChars.foldl (fun acc a => replaceChar a '_' acc) l

/-- The character set of Python `str.strip(' .')`. -/
def isSpaceDot (c : Char) : Bool := c = ' ' || c = '.'

/-- Python `str.strip(' .')`: drop spaces and dots from both ends. -/
def pyStripSpaceDot (l : List Char) : List Char :=
  ((l.dropWhile isSpaceDot).reverse.dropWhile isSpaceDot).reverse

/-- `sanitize_filename` from `src/utils/file_utils.py`: replace each
invalid character by `'_'`, strip leading/trailing spaces and dots, and
fall back to `"unnamed_file"` when the result is empty. -/
def sanitize_filename (s : String) : String :=
  let l := pyStripSpaceDot (replaceInvalid s.data)
  if l = [] then "unnamed_file" else ⟨l⟩

/-- Candidate name `f"{stem}_{counter}{suffix}"` from `get_unique_filename`. -/
def candName (stem suffix : String) (k : Nat) : String :=
  stem ++ "_" ++ Nat.repr k ++ suffix

/-- The `while True` loop of `get_unique_filename`, with explicit fuel
(the Python loop has none; we later prove the fuel used never runs out).
`d`, `stem`, `suffix` are `file_path.parent`, `file_path.stem`,
`file_path.suffix`; `fsEx` is the set of paths for which `exists()` is
true. -/
def uniqueLoop (fsEx : List PyPath) (d : List String) (stem suffix : String) :
    Nat → Nat → Option PyPath
  | 0, _ => none
  | fuel + 1, counter =>
    let np : PyPath := ⟨d, candName stem suffix counter⟩
    if np ∈ fsEx then uniqueLoop fsEx d stem suffix fuel (counter + 1) else some np

/-- `get_unique_filename` from `src/utils/file_utils.py`: return the path
unchanged when it does not exist, else run the suffix loop starting at
counter 1.  `none` models non-termination of the source loop. -/
def get_unique_filename (fsEx : List PyPath) (p : PyPath) : Option PyPath :=
  if p ∈ fsEx then
    uniqueLoop fsEx p.dir (pyStem p.name) (pySuffix p.name) (fsEx.length + 1) 1
  else some p

/-- Candidate paths are injective in the counter. -/
theorem candName_injective (d : List String) (stem suffix : String) :
    Function.Injective fun k => (⟨d, candName stem suffix k⟩ : PyPath) := by
  intro i j h
  have hname : candName stem suffix i = candName stem suffix j := congrArg PyPath.name h
  unfold candName at hname
  have hdata := congrArg String.data hname
  simp only [String.data_append] at hdata
  have h1 := List.append_cancel_right hdata
  have h2 := List.append_cancel_left h1
  exact natRepr_injective (String.ext h2)

/-- The suffix loop, given enough fuel to reach a free candidate, stops at
the first free counter and reports every earlier candidate as taken. -/
theorem uniqueLoop_spec (fsEx : List PyPath) (d : List String) (stem suffix : String) :
    ∀ (fuel c : Nat),
      (∃ j, j < fuel ∧ (⟨d, candName stem suffix (c + j)⟩ : PyPath) ∉ fsEx) →
      ∃ j0, j0 < fuel ∧
        uniqueLoop fsEx d stem suffix fuel c =
          some ⟨d, candName stem suffix (c + j0)⟩ ∧
        (⟨d, candName stem suffix (c + j0)⟩ : PyPath) ∉ fsEx ∧
        ∀ i, i < j0 → (⟨d, candName stem suffix (c + i)⟩ : PyPath) ∈ fsEx := by
  intro fuel
  induction fuel with
  | zero =>
    intro c h
    obtain ⟨j, hj, _⟩ := h
    omega
  | succ fuel ih =>
    intro c h
    obtain ⟨j, hj, hfree⟩ := h
    by_cases hmem : (⟨d, candName stem suffix c⟩ : PyPath) ∈ fsEx
    · have hj0 : j ≠ 0 := by
        rintro rfl
        rw [Nat.add_zero] at hfree
        exact hfree hmem
      obtain ⟨j0, hj0lt, heq, hfr, hmin⟩ := ih (c + 1)
        ⟨j - 1, by omega, by
          have hcj : c + 1 + (j - 1) = c + j := by omega
          rw [hcj]; exact hfree⟩
      have hshift : c + 1 + j0 = c + (j0 + 1) := by omega
      refine ⟨j0 + 1, by omega, ?_, ?_, ?_⟩
      · simp only [uniqueLoop, if_pos hmem]
        rw [heq, hshift]
      · rw [← hshift]; exact hfr
      · intro i hi
        cases i with
        | zero => rw [Nat.add_zero]; exact hmem
        | succ i' =>
          have : c + 1 + i' = c + (i' + 1) := by omega
          rw [← this]
          exact hmin i' (by omega)
    · refine ⟨0, by omega, ?_, ?_, ?_⟩
      · simp only [uniqueLoop, if_neg hmem, Nat.add_zero]
      · rw [Nat.add_zero]; exact hmem
      · intro i hi; omega

/-- Pigeonhole: the counters `1, …, |fsEx| + 1` give `|fsEx| + 1` distinct
candidate paths, so one of them is free. -/
theorem exists_free_candidate (fsEx : List PyPath) (d : List String)
    (stem suffix : String) :
    ∃ j, j < fsEx.length + 1 ∧
      (⟨d, candName stem suffix (1 + j)⟩ : PyPath) ∉ fsEx := by
  by_contra hc
  push_neg at hc
  have hinj := candName_injective d stem suffix
  have hnd : ((List.range (fsEx.length + 1)).map
      (fun j => (⟨d, candName stem suffix (1 + j)⟩ : PyPath))).Nodup := by
    refine List.Nodup.map ?_ (List.nodup_range _)
    intro a b hab
    have := hinj hab
    omega
  have hsubF : ((List.range (fsEx.length + 1)).map
      (fun j => (⟨d, candName stem suffix (1 + j)⟩ : PyPath))).toFinset ⊆
      fsEx.toFinset := by
    intro x hx
    rw [List.mem_toFinset] at hx ⊢
    obtain ⟨j, hj, rfl⟩ := List.mem_map.mp hx
    exact hc j (List.mem_range.mp hj)
  have hcard := Finset.card_le_card hsubF
  rw [List.toFinset_card_of_nodup hnd] at hcard
  have hlen : ((List.range (fsEx.length + 1)).map
      (fun j => (⟨d, candName stem suffix (1 + j)⟩ : PyPath))).length =
      fsEx.length + 1 := by simp
  rw [hlen] at hcard
  have := List.toFinset_card_le (l := fsEx)
  omega

/-- C7 core: `get_unique_filename` returns the input unchanged when free,
else the candidate with the smallest positive counter, all smaller
counters being taken. -/
theorem get_unique_filename_spec (fsEx : List PyPath) (p : PyPath) :
    (p ∉ fsEx → get_unique_filename fsEx p = some p) ∧
    (p ∈ fsEx → ∃ k, 0 < k ∧
      get_unique_filename fsEx p =
        some ⟨p.dir, candName (pyStem p.name) (pySuffix p.name) k⟩ ∧
      (⟨p.dir, candName (pyStem p.name) (pySuffix p.name) k⟩ : PyPath) ∉ fsEx ∧
      ∀ j, 0 < j → j < k →
        (⟨p.dir, candName (pyStem p.name) (pySuffix p.name) j⟩ : PyPath) ∈ fsEx) := by
  constructor
  · intro hnot
    simp [get_unique_filename, hnot]
  · intro hmem
    obtain ⟨j, hj, hfree⟩ :=
      exists_free_candidate fsEx p.dir (pyStem p.name) (pySuffix p.name)
    obtain ⟨j0, _, heq, hfr, hmin⟩ :=
      uniqueLoop_spec fsEx p.dir (pyStem p.name) (pySuffix p.name)
        (fsEx.length + 1) 1 ⟨j, hj, hfree⟩
    refine ⟨1 + j0, by omega, ?_, hfr, ?_⟩
    · rw [get_unique_filename, if_pos hmem, heq]
    · intro i hi0 hilt
      have hix : 1 + (i - 1) = i := by omega
      have := hmin (i - 1) (by omega)
      rw [hix] at this
      exact this

/-! ## Python `str.format` for named placeholders

The naming patterns of this repository (`"{artist} - {title} ({year})"`,
`"{title} ({year}) - {quality}"`, and the renamer's fallback defaults)
use plain named placeholders only, so the model covers named fields
without conversions or format specs: `{name}` substitutes the field,
`{{`/`}}` escape a brace, an unmatched brace is a `ValueError`, a field
absent from the mapping is a `KeyError` (raised at the first such field,
left to right). -/

inductive FmtTok where
  | lit (c : Char)
  | field (name : String)
deriving DecidableEq, Repr

/-- Fuel-based tokenizer body.  Every step consumes at least one input
character, so fuel `l.length + 1` can never run out; the fuel only makes
the recursion structural. -/
def tokenizeFmtAux : Nat → List Char → Option (List FmtTok)
  | 0, _ => none
  | _ + 1, [] => some []
  | fuel + 1, '\x7b' :: '\x7b' :: rest =>
    (List.cons (FmtTok.lit '\x7b')) <$> tokenizeFmtAux fuel rest
  | fuel + 1, '\x7b' :: rest =>
    match rest.dropWhile (fun c => c ≠ '\x7d') with
    | [] => none
    | _ :: rest' =>
      (List.cons (FmtTok.field ⟨rest.takeWhile (fun c => c ≠ '\x7d')⟩)) <$>
        tokenizeFmtAux fuel rest'
  | fuel + 1, '\x7d' :: '\x7d' :: rest =>
    (List.cons (FmtTok.lit '\x7d')) <$> tokenizeFmtAux fuel rest
  | _ + 1, '\x7d' :: _ => none
  | fuel + 1, c :: rest => (List.cons (FmtTok.lit c)) <$> tokenizeFmtAux fuel rest

/-- Tokenize a format string; `none` models `ValueError`. -/
def tokenizeFmt (l : List Char) : Option (List FmtTok) :=
  tokenizeFmtAux (l.length + 1) l

/-- Outcome of `pattern.format(**metadata)`. -/
inductive FormatResult where
  | ok (s : String)
  | keyError (key : String)
  | valueError
deriving DecidableEq, Repr

/-- First value stored under key `k` (Python dict lookup). -/
def lookupStr (md : List (String × String)) (k : String) : Option String :=
  (md.find? (fun kv => kv.1 = k)).map (·.2)

/-- Substitute the tokens; a missing field is the `KeyError` Python
raises at the first unresolved placeholder. -/
def substToks (md : List (String × String)) : List FmtTok → FormatResult
  | [] => .ok ""
  | .lit c :: ts =>
    match substToks md ts with
    | .ok s => .ok (⟨[c]⟩ ++ s)
    | e => e
  | .field k :: ts =>
    match lookupStr md k with
    | none => .keyError k
    | some v =>
      match substToks md ts with
      | .ok s => .ok (v ++ s)
      | e => e

/-- `pattern.format(**metadata)`. -/
def pyFormat (pattern : String) (md : List (String × String)) : FormatResult :=
  match tokenizeFmt pattern.data with
  | none => .valueError
  | some ts => substToks md ts

/-! ## Configuration and `src/core/file_renamer.py`

The configuration dictionary is modelled by the fields the core reads.
`supported_formats` can hold either the mapping
`{'audio': [...], 'video': [...]}` documented in the spec (its keys are
exactly `audio` and `video`) or the flat extension list that
`AppConfig` in `src/utils/config.py` defaults to; `none` models an
absent key.  The `Bool` flags carry the result of
`config.get('backup_enabled', True)` / `config.get('update_metadata', True)`. -/

inductive FormatsVal where
  | dict (audio video : List String)
  | flat (exts : List String)
deriving DecidableEq, Repr

structure Config where
  supported_formats : Option FormatsVal
  naming_audio_pattern : Option String
  naming_video_pattern : Option String
  backup_enabled : Bool
  update_metadata : Bool
deriving Repr

/-- `FileRenamer._is_audio` (identical in `MetadataHandler._is_audio`):
`file_path.suffix.lower() in config.get("supported_formats", {}).get("audio", [])`.
When `supported_formats` holds a list, `.get("audio", [])` raises
`AttributeError`, modelled as `.error`. -/
def isAudio (cfg : Config) (p : PyPath) : Except String Bool :=
  match cfg.supported_formats with
  | some (.dict audio _) => .ok (decide (pyLower p.suffix ∈ audio))
  | some (.flat _) => .error "AttributeError"
  | none => .ok false

/-- `FileRenamer._is_video` / `MetadataHandler._is_video`. -/
def isVideo (cfg : Config) (p : PyPath) : Except String Bool :=
  match cfg.supported_formats with
  | some (.dict _ video) => .ok (decide (pyLower p.suffix ∈ video))
  | some (.flat _) => .error "AttributeError"
  | none => .ok false

/-- `FileProcessor._is_media_file`:
`file_path.suffix.lower() in self.config.get('supported_formats', [])`.
Python `in` on a dict tests **key** membership, so under the documented
mapping shape the extension is compared against the keys
`"audio"`/`"video"`, never against the extension lists. -/
def isMediaFile (cfg : Config) (p : PyPath) : Bool :=
  match cfg.supported_formats with
  | none => false
  | some (.flat exts) => decide (pyLower p.suffix ∈ exts)
  | some (.dict _ _) => decide (pyLower p.suffix ∈ (["audio", "video"] : List String))

/-- `config.get("naming", {}).get("audio_pattern", "{artist} - {title}")`. -/
def audioPattern (cfg : Config) : String :=
  cfg.naming_audio_pattern.getD "{artist} - {title}"

/-- `config.get("naming", {}).get("video_pattern", "{title} ({year})")`. -/
def videoPattern (cfg : Config) : String :=
  cfg.naming_video_pattern.getD "{title} ({year})"

/-- `FileProcessor._find_media_files`: filter the recursive listing of
the directory (given here as the list of its files) through
`_is_media_file`. -/
def find_media_files (cfg : Config) (listing : List PyPath) : List PyPath :=
  listing.filter (fun p => isMediaFile cfg p)

/-- The `try: new_name = pattern.format(**metadata) except KeyError: return file_path.name`
tail of `generate_filename`, followed by
`sanitize_filename(f"{new_name}{file_path.suffix}")`. -/
def genWithPattern (pattern : String) (p : PyPath) (md : List (String × String)) :
    Except String String :=
  match pyFormat pattern md with
  | .ok newName => .ok (sanitize_filename (newName ++ p.suffix))
  | .keyError _ => .ok p.name
  | .valueError => .error "ValueError: bad format string"

/-- `FileRenamer.generate_filename`.  Kind dispatch picks the audio or
video pattern (with the in-code defaults) or returns the name unchanged
for an unsupported kind; `.error` models an exception escaping to the
caller. -/
def generate_filename (cfg : Config) (p : PyPath) (md : List (String × String)) :
    Except String String :=
  match isAudio cfg p with
  | .error e => .error e
  | .ok true => genWithPattern (audioPattern cfg) p md
  | .ok false =>
    match isVideo cfg p with
    | .error e => .error e
    | .ok true => genWithPattern (videoPattern cfg) p md
    | .ok false => .ok p.name

/-! ## Claims about discovery and filename generation -/

/-- A `pathlib` suffix, lowercased, is empty or starts with `'.'`, so it
can never equal a dictionary key `"audio"` or `"video"`. -/
theorem pyLower_pySuffix_not_dict_key (s : String) :
    pyLower (pySuffix s) ∉ (["audio", "video"] : List String) := by
  intro hmem
  rcases pySuffixL_eq_nil_or_head s.data with h | ⟨rest, h⟩
  · rw [List.mem_cons, List.mem_cons] at hmem
    rcases hmem with hx | hx | hx
    · have := congrArg String.data hx
      simp [pyLower, pySuffix, h] at this
    · have := congrArg String.data hx
      simp [pyLower, pySuffix, h] at this
    · simp at hx
  · rw [List.mem_cons, List.mem_cons] at hmem
    rcases hmem with hx | hx | hx
    · have hdat := congrArg String.data hx
      simp only [pyLower, pySuffix, h, List.map_cons] at hdat
      have hhead := congrArg (List.head? ·) hdat
      simp at hhead
    · have hdat := congrArg String.data hx
      simp only [pyLower, pySuffix, h, List.map_cons] at hdat
      have hhead := congrArg (List.head? ·) hdat
      simp at hhead
    · simp at hx

/-- C2: under the documented mapping shape of `supported_formats`, the
directory filter `_is_media_file` compares the lowercased extension
against the dict **keys** and therefore rejects every file, while the
renamer (and the metadata gateway, which runs the same test) classifies
a file whose extension is in the audio or video list as that kind. -/
theorem dict_formats_discovery_mismatch (audio video : List String)
    (np vp : Option String) (be um : Bool) (p : PyPath) (listing : List PyPath)
    (h : pyLower p.suffix ∈ audio ∨ pyLower p.suffix ∈ video) :
    isMediaFile ⟨some (.dict audio video), np, vp, be, um⟩ p = false ∧
      find_media_files ⟨some (.dict audio video), np, vp, be, um⟩ listing = [] ∧
      (isAudio ⟨some (.dict audio video), np, vp, be, um⟩ p = .ok true ∨
        isVideo ⟨some (.dict audio video), np, vp, be, um⟩ p = .ok true) := by
  refine ⟨?_, ?_, ?_⟩
  · rw [isMediaFile]
    simp only [decide_eq_false_iff_not]
    exact pyLower_pySuffix_not_dict_key p.name
  · rw [find_media_files, List.filter_eq_nil_iff]
    intro q _
    rw [isMediaFile]
    simp only [decide_eq_false_iff_not, decide_eq_true_eq]
    exact pyLower_pySuffix_not_dict_key q.name
  · rcases h with h | h
    · exact Or.inl (by rw [isAudio]; simp [h])
    · exact Or.inr (by rw [isVideo]; simp [h])

/-- Witness for C2 at a concrete configuration, file and directory
listing. -/
theorem dict_formats_discovery_mismatch_witness :
    isMediaFile ⟨some (.dict [".mp3"] [".mp4"]), none, none, true, true⟩
        ⟨[], "song.mp3"⟩ = false ∧
      find_media_files ⟨some (.dict [".mp3"] [".mp4"]), none, none, true, true⟩
        [⟨[], "song.mp3"⟩, ⟨[], "movie.mp4"⟩] = [] ∧
      (isAudio ⟨some (.dict [".mp3"] [".mp4"]), none, none, true, true⟩
          ⟨[], "song.mp3"⟩ = .ok true ∨
        isVideo ⟨some (.dict [".mp3"] [".mp4"]), none, none, true, true⟩
          ⟨[], "song.mp3"⟩ = .ok true) :=
  dict_formats_discovery_mismatch [".mp3"] [".mp4"] none none true true
    ⟨[], "song.mp3"⟩ [⟨[], "song.mp3"⟩, ⟨[], "movie.mp4"⟩] (Or.inl (by decide))

/-- If some placeholder of the token list has no entry in the metadata,
substitution raises a `KeyError` (of the first such placeholder). -/
theorem substToks_keyError (md : List (String × String)) (ts : List FmtTok)
    (h : ∃ k, FmtTok.field k ∈ ts ∧ lookupStr md k = none) :
    ∃ k', substToks md ts = .keyError k' := by
  induction ts with
  | nil =>
    obtain ⟨k, hk, _⟩ := h
    simp at hk
  | cons t ts ih =>
    obtain ⟨k, hk, hnone⟩ := h
    cases t with
    | lit c =>
      have hmem : FmtTok.field k ∈ ts := by
        rcases List.mem_cons.mp hk with hx | hx
        · exact absurd hx (by simp)
        · exact hx
      obtain ⟨k', hk'⟩ := ih ⟨k, hmem, hnone⟩
      exact ⟨k', by rw [substToks, hk']⟩
    | field k2 =>
      cases h2 : lookupStr md k2 with
      | none => exact ⟨k2, by rw [substToks, h2]⟩
      | some v =>
        have hmem : FmtTok.field k ∈ ts := by
          rcases List.mem_cons.mp hk with hx | hx
          · have : k = k2 := by injection hx
            subst this
            rw [hnone] at h2
            exact absurd h2 (by simp)
          · exact hx
        obtain ⟨k', hk'⟩ := ih ⟨k, hmem, hnone⟩
        exact ⟨k', by rw [substToks, h2, hk']⟩

/-- C5: for an audio or video file, when the selected pattern has a
placeholder with no matching metadata entry, `generate_filename`
returns the original file name unchanged. -/
theorem generate_filename_missing_key (cfg : Config) (p : PyPath)
    (md : List (String × String)) (audio video : List String) (pattern : String)
    (hsf : cfg.supported_formats = some (.dict audio video))
    (hsel : (pyLower p.suffix ∈ audio ∧ pattern = audioPattern cfg) ∨
      (pyLower p.suffix ∉ audio ∧ pyLower p.suffix ∈ video ∧
        pattern = videoPattern cfg))
    (ts : List FmtTok) (hts : tokenizeFmt pattern.data = some ts)
    (hmiss : ∃ k, FmtTok.field k ∈ ts ∧ lookupStr md k = none) :
    generate_filename cfg p md = .ok p.name := by
  obtain ⟨k', hk'⟩ := substToks_keyError md ts hmiss
  rcases hsel with ⟨hmem, rfl⟩ | ⟨hnot, hmem, rfl⟩
  · have hA : isAudio cfg p = .ok true := by rw [isAudio, hsf]; simp [hmem]
    simp only [generate_filename, hA, genWithPattern, pyFormat, hts, hk']
  · have hA : isAudio cfg p = .ok false := by rw [isAudio, hsf]; simp [hnot]
    have hV : isVideo cfg p = .ok true := by rw [isVideo, hsf]; simp [hmem]
    simp only [generate_filename, hA, hV, genWithPattern, pyFormat, hts, hk']

/-- Witness for C5: `song.mp3` with empty metadata and the default audio
pattern keeps its name. -/
theorem generate_filename_missing_key_witness :
    generate_filename ⟨some (.dict [".mp3"] []), none, none, true, true⟩
      ⟨[], "song.mp3"⟩ [] = .ok "song.mp3" :=
  generate_filename_missing_key
    ⟨some (.dict [".mp3"] []), none, none, true, true⟩ ⟨[], "song.mp3"⟩ []
    [".mp3"] [] "{artist} - {title}" rfl (Or.inl ⟨by decide, rfl⟩)
    [FmtTok.field "artist", FmtTok.lit ' ', FmtTok.lit '-', FmtTok.lit ' ',
      FmtTok.field "title"]
    (by decide) ⟨"artist", by decide, rfl⟩

/-! ## Sanitization properties (claim C6) -/

/-- Pointwise effect of the whole replacement loop on a character. -/
def substInvalid (c : Char) : Char := if c ∈ invalidChars then '_' else c

theorem foldl_replaceChar_eq_map (as : List Char) (l : List Char) :
    as.foldl (fun acc a => replaceChar a '_' acc) l =
      l.map (fun c => as.foldl (fun x a => if x = a then '_' else x) c) := by
  induction as generalizing l with
  | nil => simp
  | cons a as ih =>
    simp only [List.foldl_cons]
    rw [ih]
    simp only [replaceChar, List.map_map]
    rfl

theorem foldl_subst_id_of_not_mem (as : List Char) (c : Char)
    (h : ∀ a ∈ as, c ≠ a) :
    as.foldl (fun x a => if x = a then '_' else x) c = c := by
  induction as with
  | nil => rfl
  | cons a as ih =>
    simp only [List.foldl_cons, if_neg (h a (by simp))]
    exact ih fun a' ha' => h a' (by simp [ha'])

theorem foldl_subst_eq_substInvalid (c : Char) :
    invalidChars.foldl (fun x a => if x = a then '_' else x) c = substInvalid c := by
  by_cases h : c ∈ invalidChars
  · rw [substInvalid, if_pos h]
    simp only [invalidChars, List.mem_cons, List.not_mem_nil, or_false] at h
    rcases h with rfl | rfl | rfl | rfl | rfl | rfl | rfl | rfl | rfl | rfl <;> rfl
  · rw [substInvalid, if_neg h]
    exact foldl_subst_id_of_not_mem _ c fun a ha heq => h (heq ▸ ha)

theorem replaceInvalid_eq_map (l : List Char) :
    replaceInvalid l = l.map substInvalid := by
  rw [replaceInvalid, foldl_replaceChar_eq_map]
  exact List.map_congr_left fun c _ => foldl_subst_eq_substInvalid c

theorem mem_replaceInvalid_not_invalid (l : List Char) :
    ∀ c ∈ replaceInvalid l, c ∉ invalidChars := by
  intro c hc
  rw [replaceInvalid_eq_map] at hc
  obtain ⟨c0, _, rfl⟩ := List.mem_map.mp hc
  by_cases h0 : c0 ∈ invalidChars
  · rw [substInvalid, if_pos h0]; decide
  · rw [substInvalid, if_neg h0]; exact h0

theorem pyStrip_subset (l : List Char) : pyStripSpaceDot l ⊆ l := by
  intro c hc
  rw [pyStripSpaceDot, List.mem_reverse] at hc
  have h1 := List.dropWhile_subset _ hc
  rw [List.mem_reverse] at h1
  exact List.dropWhile_subset _ h1

/-- No invalid character survives `sanitize_filename`. -/
theorem sanitize_filename_no_invalid (s : String) :
    ∀ c ∈ (sanitize_filename s).data, c ∉ invalidChars := by
  intro c hc
  rw [sanitize_filename] at hc
  by_cases hnil : pyStripSpaceDot (replaceInvalid s.data) = []
  · rw [if_pos hnil] at hc
    have hdat : ("unnamed_file" : String).data =
        ['u', 'n', 'n', 'a', 'm', 'e', 'd', '_', 'f', 'i', 'l', 'e'] := rfl
    rw [hdat] at hc
    simp only [List.mem_cons, List.not_mem_nil, or_false] at hc
    rcases hc with rfl | rfl | rfl | rfl | rfl | rfl | rfl | rfl | rfl | rfl | rfl | rfl
      <;> decide
  · rw [if_neg hnil] at hc
    exact mem_replaceInvalid_not_invalid _ c (pyStrip_subset _ hc)

/-- When the name part keeps at least one non-space, non-dot character
after replacement, and the suffix is nonempty, free of invalid
characters and does not end in a space or dot, stripping cannot reach
the suffix: the sanitized concatenation still ends in the suffix. -/
theorem sanitize_filename_endsWith (name suffix : List Char)
    (hinv : ∀ c ∈ suffix, c ∉ invalidChars)
    (hne : suffix ≠ [])
    (hlast : ∀ c, suffix.getLast? = some c → isSpaceDot c = false)
    (hkeep : ∃ c ∈ replaceInvalid name, isSpaceDot c = false) :
    ∃ t, (sanitize_filename ⟨name ++ suffix⟩).data = t ++ suffix := by
  have hsuf : replaceInvalid suffix = suffix := by
    rw [replaceInvalid_eq_map]
    have hid : ∀ c ∈ suffix, substInvalid c = c := fun c hcmem => by
      simp only [substInvalid]
      rw [if_neg (hinv c hcmem)]
    exact (List.map_congr_left hid).trans (List.map_id suffix)
  have happ : replaceInvalid (name ++ suffix) = replaceInvalid name ++ suffix := by
    rw [replaceInvalid_eq_map, List.map_append, ← replaceInvalid_eq_map,
      ← replaceInvalid_eq_map, hsuf]
  obtain ⟨c0, hc0mem, hc0⟩ := hkeep
  have hdropNe : (replaceInvalid name).dropWhile isSpaceDot ≠ [] := by
    intro hcon
    have := List.dropWhile_eq_nil_iff.mp hcon c0 hc0mem
    rw [hc0] at this
    exact Bool.false_ne_true this
  have hdrop1 : (replaceInvalid name ++ suffix).dropWhile isSpaceDot =
      (replaceInvalid name).dropWhile isSpaceDot ++ suffix := by
    rw [List.dropWhile_append]
    rw [if_neg (by simpa [List.isEmpty_iff] using hdropNe)]
  obtain ⟨cl, hcl⟩ : ∃ cl, suffix.getLast? = some cl := by
    cases hsl : suffix.getLast? with
    | none => exact absurd (List.getLast?_eq_none_iff.mp hsl) hne
    | some cl => exact ⟨cl, rfl⟩
  have hrev : ∃ rtail, suffix.reverse = cl :: rtail := by
    cases hr : suffix.reverse with
    | nil => simp [List.reverse_eq_nil_iff] at hr; exact absurd hr hne
    | cons x xs =>
      refine ⟨xs, ?_⟩
      have hhd : suffix.reverse.head? = some x := by rw [hr]; rfl
      rw [List.head?_reverse, hcl] at hhd
      injection hhd with hx
      rw [hx]
  obtain ⟨rtail, hrtail⟩ := hrev
  have hdrop2 : (((replaceInvalid name).dropWhile isSpaceDot ++ suffix).reverse).dropWhile
      isSpaceDot = ((replaceInvalid name).dropWhile isSpaceDot ++ suffix).reverse := by
    rw [List.reverse_append, hrtail, List.cons_append, List.dropWhile_cons_of_neg]
    simp [hlast cl hcl]
  refine ⟨(replaceInvalid name).dropWhile isSpaceDot, ?_⟩
  have hres : pyStripSpaceDot (replaceInvalid (name ++ suffix)) =
      (replaceInvalid name).dropWhile isSpaceDot ++ suffix := by
    rw [pyStripSpaceDot, happ, hdrop1, hdrop2, List.reverse_reverse]
  rw [sanitize_filename]
  rw [if_neg (by rw [hres]; simp [hne])]
  rw [hres]

/-- C6 counterexample: with the audio pattern `"{artist}"` and metadata
`artist = " "`, all placeholders resolve, yet the result is `"mp3"`,
which does not end in the original extension `".mp3"`: the leading
strip of `sanitize_filename` consumed the extension's dot, because
sanitization runs on the concatenated name *after* the extension is
attached. -/
theorem sanitize_after_extension_cex :
    generate_filename ⟨some (.dict [".mp3"] []), some "{artist}", none, true, true⟩
        ⟨[], "a.mp3"⟩ [("artist", " ")] = .ok "mp3" ∧
      ¬ (".mp3" : String).data <:+ ("mp3" : String).data := by
  refine ⟨rfl, ?_⟩
  rintro ⟨t, ht⟩
  have hlen := congrArg List.length ht
  simp at hlen

/-- C6 (amended): when every placeholder of the selected pattern
resolves, `generate_filename` returns
`sanitize_filename (new_name ++ suffix)` — sanitization is applied to
the concatenation *after* the extension is attached, not before — and
the result contains no invalid character; it still ends in the original
extension provided the extension is nonempty, free of invalid
characters, does not end in a space or dot, and the substituted name
keeps at least one non-space, non-dot character after replacement. -/
theorem generate_filename_sanitized_output (cfg : Config) (p : PyPath)
    (md : List (String × String)) (audio video : List String)
    (pattern newName : String)
    (hsf : cfg.supported_formats = some (.dict audio video))
    (hsel : (pyLower p.suffix ∈ audio ∧ pattern = audioPattern cfg) ∨
      (pyLower p.suffix ∉ audio ∧ pyLower p.suffix ∈ video ∧
        pattern = videoPattern cfg))
    (hfmt : pyFormat pattern md = .ok newName) :
    generate_filename cfg p md = .ok (sanitize_filename (newName ++ p.suffix)) ∧
    (∀ c ∈ (sanitize_filename (newName ++ p.suffix)).data, c ∉ invalidChars) ∧
    ((∀ c ∈ p.suffix.data, c ∉ invalidChars) → p.suffix.data ≠ [] →
      (∀ c, p.suffix.data.getLast? = some c → isSpaceDot c = false) →
      (∃ c ∈ replaceInvalid newName.data, isSpaceDot c = false) →
      ∃ t, (sanitize_filename (newName ++ p.suffix)).data = t ++ p.suffix.data) := by
  refine ⟨?_, sanitize_filename_no_invalid _, ?_⟩
  · rcases hsel with ⟨hmem, rfl⟩ | ⟨hnot, hmem, rfl⟩
    · have hA : isAudio cfg p = .ok true := by rw [isAudio, hsf]; simp [hmem]
      simp only [generate_filename, hA, genWithPattern, hfmt]
    · have hA : isAudio cfg p = .ok false := by rw [isAudio, hsf]; simp [hnot]
      have hV : isVideo cfg p = .ok true := by rw [isVideo, hsf]; simp [hmem]
      simp only [generate_filename, hA, hV, genWithPattern, hfmt]
  · intro h1 h2 h3 h4
    have hstr : (newName ++ p.suffix) =
        (⟨newName.data ++ p.suffix.data⟩ : String) :=
      String.ext (String.data_append newName p.suffix)
    rw [hstr]
    exact sanitize_filename_endsWith newName.data p.suffix.data h1 h2 h3 h4

/-- Witness for the amended C6 at a concrete renaming. -/
theorem generate_filename_sanitized_output_witness :
    generate_filename ⟨some (.dict [".mp3"] []), none, none, true, true⟩
        ⟨[], "song.mp3"⟩ [("artist", "A"), ("title", "B")] =
      .ok (sanitize_filename ("A - B" ++ pySuffix "song.mp3")) ∧
    sanitize_filename ("A - B" ++ pySuffix "song.mp3") = "A - B.mp3" :=
  ⟨(generate_filename_sanitized_output
      ⟨some (.dict [".mp3"] []), none, none, true, true⟩ ⟨[], "song.mp3"⟩
      [("artist", "A"), ("title", "B")] [".mp3"] [] "{artist} - {title}" "A - B"
      rfl (Or.inl ⟨by decide, rfl⟩) (by decide)).1,
    by decide⟩

/-- Witness for C7 at two concrete inputs: a free path is returned
unchanged; a taken path gets the `_1` suffix. -/
theorem get_unique_filename_spec_witness :
    get_unique_filename ([] : List PyPath) ⟨[], "a.mp3"⟩ = some ⟨[], "a.mp3"⟩ ∧
    get_unique_filename [⟨[], "a.mp3"⟩] ⟨[], "a.mp3"⟩ = some ⟨[], "a_1.mp3"⟩ := by
  constructor
  · exact (get_unique_filename_spec [] ⟨[], "a.mp3"⟩).1 (by decide)
  · obtain ⟨k, hk, heq, hfree, hmin⟩ :=
      (get_unique_filename_spec [⟨[], "a.mp3"⟩] ⟨[], "a.mp3"⟩).2 (by decide)
    have hk1 : k = 1 := by
      by_contra hne
      exact absurd (hmin 1 (by omega) (by omega)) (by decide)
    subst hk1
    exact heq.trans (by decide)

/-! ## `src/core/file_processor.py` — the per-file pipeline

`ProcessingResult` mirrors the dataclass.  The external collaborators
(format validator, backup manager outcome, codec extraction/update
outcomes, the `rename` syscall, the `exists()` oracle) are inputs; the
renamer's own logic (`generate_filename`, `rename_file`,
`get_unique_filename`) is the model above.  `none` as the overall
result models divergence (the uniqueness loop never finding a free
name), `.error` values model exceptions reaching the `except` boundary
of `process_file`, where they are recorded as an error string. -/

structure ProcessingResult where
  success : Bool
  original_path : PyPath
  new_path : Option PyPath
  metadata : List (String × String)
  errors : List String
  warnings : List String
deriving DecidableEq, Repr

structure PFEnv where
  validate : PyPath → Bool
  backupResult : Option PyPath
  audioMeta : List (String × String)
  videoMeta : List (String × String)
  audioUpdate : Bool
  videoUpdate : Bool
  renameExc : Option String
  fsExists : List PyPath

/-- `MetadataHandler.extract_metadata`: dispatch by kind, `{}` for an
unsupported kind; the codecs catch their own exceptions and return a
dict, so only the kind test can raise. -/
def extract_metadata (cfg : Config) (env : PFEnv) (p : PyPath) :
    Except String (List (String × String)) :=
  match isAudio cfg p with
  | .error e => .error e
  | .ok true => .ok env.audioMeta
  | .ok false =>
    match isVideo cfg p with
    | .error e => .error e
    | .ok true => .ok env.videoMeta
    | .ok false => .ok []

/-- `MetadataHandler.update_metadata`: dispatch by kind, `False` for an
unsupported kind. -/
def update_metadata (cfg : Config) (env : PFEnv) (p : PyPath) : Except String Bool :=
  match isAudio cfg p with
  | .error e => .error e
  | .ok true => .ok env.audioUpdate
  | .ok false =>
    match isVideo cfg p with
    | .error e => .error e
    | .ok true => .ok env.videoUpdate
    | .ok false => .ok false

/-- `FileRenamer.rename_file`: resolve against the parent directory,
make the name unique, then `old_path.rename(new_path)` (which can raise
an `OSError`, given by the environment). -/
def rename_file (env : PFEnv) (old_path : PyPath) (new_name : String) :
    Option (Except String PyPath) :=
  match get_unique_filename env.fsExists ⟨old_path.dir, new_name⟩ with
  | none => none
  | some np =>
    match env.renameExc with
    | some msg => some (.error msg)
    | none => some (.ok np)

/-- `FileProcessor.process_file`: the seven-step pipeline.  Note that
`generate_filename` reports a missing placeholder by returning the
original file name, which is non-empty, so the `if not new_filename`
guard (modelled by the `= ""` test) cannot fire for it; similarly
`rename_file` returns a `Path`, which is always truthy, so the
`if not new_path` guard of the source is dead and does not appear. -/
def process_file (cfg : Config) (env : PFEnv) (p : PyPath) :
    Option ProcessingResult :=
  let r0 : ProcessingResult := ⟨false, p, none, [], [], []⟩
  if ¬ env.validate p then
    some { r0 with errors := r0.errors ++ ["File validation failed"] }
  else
    let r1 := if cfg.backup_enabled ∧ env.backupResult = none then
      { r0 with warnings := r0.warnings ++ ["Failed to create backup"] } else r0
    match extract_metadata cfg env p with
    | .error e => some { r1 with errors := r1.errors ++ [e] }
    | .ok md =>
      let r2 := { r1 with metadata := md }
      match generate_filename cfg p md with
      | .error e => some { r2 with errors := r2.errors ++ [e] }
      | .ok newFilename =>
        if newFilename = "" then
          some { r2 with errors := r2.errors ++ ["Failed to generate new filename"] }
        else
          match rename_file env p newFilename with
          | none => none
          | some (.error e) => some { r2 with errors := r2.errors ++ [e] }
          | some (.ok np) =>
            let r3 := { r2 with new_path := some np }
            let step6 : Except String ProcessingResult :=
              if cfg.update_metadata then
                match update_metadata cfg env np with
                | .error e => .error e
                | .ok true => .ok r3
                | .ok false =>
                  .ok { r3 with
                    warnings := r3.warnings ++ ["Failed to update metadata"] }
              else .ok r3
            match step6 with
            | .error e => some { r3 with errors := r3.errors ++ [e] }
            | .ok r4 =>
              if env.validate np then some { r4 with success := true }
              else some { r4 with errors := r4.errors ++ ["Final validation failed"] }

/-- C4: every `ProcessingResult` that `process_file` returns has
`success = true` exactly when its error list is empty: any recorded
error forces `success = false`, and warnings alone (backup failure,
metadata-update failure) never prevent `success = true` once the fatal
steps and the final validation pass. -/
theorem process_file_success_iff_no_errors (cfg : Config) (env : PFEnv) (p : PyPath)
    (r : ProcessingResult) (h : process_file cfg env p = some r) :
    r.success = true ↔ r.errors = [] := by
  unfold process_file at h
  repeat' split at h
  all_goals
    first
      | exact Option.noConfusion (show (none : Option ProcessingResult) = some r from h)
      | (injection h with h; subst h; simp)

/-- Witness for C4: a run that collects two warnings (backup failed,
metadata update failed) and still succeeds with no error. -/
theorem process_file_success_iff_no_errors_witness :
    ((⟨true, ⟨[], "x.mp3"⟩, some ⟨[], "x.mp3"⟩, [], [],
        ["Failed to create backup", "Failed to update metadata"]⟩ :
      ProcessingResult).success = true ↔
    (⟨true, ⟨[], "x.mp3"⟩, some ⟨[], "x.mp3"⟩, [], [],
        ["Failed to create backup", "Failed to update metadata"]⟩ :
      ProcessingResult).errors = []) :=
  process_file_success_iff_no_errors ⟨none, none, none, true, true⟩
    ⟨fun _ => true, none, [], [], true, true, none, []⟩ ⟨[], "x.mp3"⟩ _ rfl

/-- C1 (code bug): for an audio file whose metadata lacks a pattern
placeholder, `generate_filename` reports the failure by returning the
*original* file name (second conjunct), which is non-empty, so the
`if not new_filename` guard in `process_file` never fires: no
"Failed to generate new filename" error is recorded, a rename *is*
attempted — the original name collides with the file itself, so the
file ends up renamed to `song_1.mp3` — and the run reports
`success = true` with no errors (first conjunct), contrary to the
specified behaviour of step 4. -/
theorem process_file_silent_generation_failure :
    process_file ⟨some (.dict [".mp3"] []), none, none, false, false⟩
        ⟨fun _ => true, none, [], [], true, true, none, [⟨["music"], "song.mp3"⟩]⟩
        ⟨["music"], "song.mp3"⟩ =
      some ⟨true, ⟨["music"], "song.mp3"⟩, some ⟨["music"], "song_1.mp3"⟩,
        [], [], []⟩ ∧
    generate_filename ⟨some (.dict [".mp3"] []), none, none, false, false⟩
        ⟨["music"], "song.mp3"⟩ [] = .ok "song.mp3" :=
  ⟨rfl, rfl⟩

/-! ## `src/utils/backup.py` — the backup store

The ledger is the JSON list `backup_metadata`; an entry is an ordered
key/value record so that statements about the serialized field *names*
are expressible.  The filesystem is an association list from rendered
path strings to file records (abstract content identity, `st_size`,
`st_mtime`) plus the set of directories that `mkdir` has touched.
`datetime.now()` is a pair of its two renderings used by the source,
and the MD5 of a file content is an oracle (`none` models a hashing
failure, which the source stores as JSON `null`). -/

inductive JValue where
  | str (s : String)
  | num (n : Nat)
  | null
deriving DecidableEq, Repr

abbrev LedgerEntry := List (String × JValue)

/-- Python dict lookup on a serialized entry. -/
def jLookup (e : LedgerEntry) (k : String) : Option JValue :=
  (e.find? (fun kv => kv.1 = k)).map (·.2)

/-- `entry[k]` as a string: `none` models `KeyError` (key absent) or the
`TypeError` of using a non-string value as a path. -/
def entryStr (e : LedgerEntry) (k : String) : Option String :=
  match jLookup e k with
  | some (.str s) => some s
  | _ => none

structure FileInfo where
  content : Nat
  size : Nat
  mtime : Int
deriving DecidableEq, Repr

/-- Filesystem state for the backup store.  `ledgerFile` is the manager's
`backup_dir/backup_metadata.json`: `none` while the file does not exist,
`some l` once `_save_backup_metadata` has written the serialization of
`l` (model files hold parsed content, so a ledger file always parses
back to what was written). -/
structure FS where
  files : List (String × FileInfo)
  dirs : List String
  ledgerFile : Option (List LedgerEntry)
deriving DecidableEq, Repr

def lookupFile (files : List (String × FileInfo)) (path : String) : Option FileInfo :=
  (files.find? (fun kv => kv.1 = path)).map (·.2)

/-- Overwriting write (what `shutil.copy2` does at the destination). -/
def setFile (files : List (String × FileInfo)) (path : String) (fi : FileInfo) :
    List (String × FileInfo) :=
  (path, fi) :: files.filter (fun kv => kv.1 ≠ path)

/-- `Path.unlink`. -/
def removeFile (files : List (String × FileInfo)) (path : String) :
    List (String × FileInfo) :=
  files.filter (fun kv => kv.1 ≠ path)

/-- `mkdir(parents=True, exist_ok=True)`, recorded coarsely as the
target directory joining the set of existing directories. -/
def insertDir (dirs : List String) (d : String) : List String :=
  if d ∈ dirs then dirs else d :: dirs

/-- `str(path / name)`. -/
def joinPath (d n : String) : String := d ++ "/" ++ n

/-- `str(Path(s).parent)`: the path with its last `/`-component dropped
(`"."` when there is none). -/
def parentOfStr (s : String) : String :=
  let parts := s.splitOn "/"
  if parts.length ≤ 1 then "." else String.intercalate "/" parts.dropLast

/-- The two renderings of `datetime.now()` used by the source:
`strftime("%Y%m%d_%H%M%S")` and `isoformat()`. -/
structure Timestamp where
  stamp : String
  iso : String
deriving DecidableEq, Repr

structure BackupManager where
  backup_dir : String
  backup_enabled : Bool
  ledger : List LedgerEntry
deriving DecidableEq, Repr

/-- `BackupManager.__init__`: when backups are enabled the backup
directory is created immediately; `_load_backup_metadata` only *reads*
the ledger file (yielding `[]` when it does not exist) and `__init__`
never writes it. -/
def bmInit (backup_directory : String) (backup_enabled : Bool) (fs : FS) :
    BackupManager × FS :=
  (⟨backup_directory, backup_enabled, fs.ledgerFile.getD []⟩,
   if backup_enabled then { fs with dirs := insertDir fs.dirs backup_directory }
   else fs)

/-- `BackupManager._add_backup_entry` followed by
`_save_backup_metadata`: build the dict literal of the source (in its
key order), append it, persist.  `none` models `original_path.stat()`
raising. -/
def addBackupEntry (hashFn : Nat → Option String) (nowIso : String)
    (files : List (String × FileInfo)) (ledger : List LedgerEntry)
    (origStr bpStr : String) : Option (List LedgerEntry) :=
  match lookupFile files origStr with
  | none => none
  | some fi =>
    some (ledger ++
      [[("original_path", .str origStr),
        ("backup_path", .str bpStr),
        ("created_at", .str nowIso),
        ("file_size", .num fi.size),
        ("file_hash",
          match hashFn fi.content with
          | some h => JValue.str h
          | none => JValue.null)]])

/-- `BackupManager.create_backup`: no-op returning `None` when
disabled; otherwise name the copy from the stem, a second-resolution
timestamp and the suffix, copy (preserving metadata), append a ledger
entry hashing the *original* file, and return the backup path.  Any
exception is caught and turned into `None` (the copy, if it already
happened, is not rolled back).  `_add_backup_entry` ends in
`_save_backup_metadata`, which rewrites the ledger file wholesale with
the appended list (a failed write is caught and logged; the model
covers the successful write). -/
def create_backup (bm : BackupManager) (fs : FS) (now : Timestamp)
    (hashFn : Nat → Option String) (file_path : PyPath) :
    Option String × BackupManager × FS :=
  if ¬ bm.backup_enabled then (none, bm, fs)
  else
    let backupPath := joinPath bm.backup_dir
      (file_path.stem ++ "_" ++ now.stamp ++ file_path.suffix)
    match lookupFile fs.files file_path.render with
    | none => (none, bm, fs)
    | some fi =>
      let fs1 := { fs with files := setFile fs.files backupPath fi }
      match addBackupEntry hashFn now.iso fs1.files bm.ledger
          file_path.render backupPath with
      | none => (none, bm, fs1)
      | some ledger' =>
        (some backupPath, { bm with ledger := ledger' },
         { fs1 with ledgerFile := some ledger' })

/-- `BackupManager._get_original_path`: first ledger entry whose
`backup_path` value equals the requested path; `.error` models the
`KeyError`/`TypeError` of reading `entry['original_path']` from a
malformed entry. -/
def getOriginalPath (ledger : List LedgerEntry) (backupPathStr : String) :
    Except Unit (Option String) :=
  match ledger.find? (fun e => jLookup e "backup_path" = some (.str backupPathStr)) with
  | none => .ok none
  | some e =>
    match jLookup e "original_path" with
    | some (.str s) => .ok (some s)
    | _ => .error ()

/-- `BackupManager.restore_backup`: resolve the original path from the
ledger (failing when absent), create the destination's parent
directories, copy the backup content over.  Exceptions (including a
missing backup file at copy time) are caught and become `False`.
Neither the ledger nor the backup file is modified. -/
def restore_backup (bm : BackupManager) (fs : FS) (backupPathStr : String)
    (restoreTo : Option String) : Bool × FS :=
  match getOriginalPath bm.ledger backupPathStr with
  | .error _ => (false, fs)
  | .ok none => (false, fs)
  | .ok (some orig) =>
    let dest := restoreTo.getD orig
    let fs1 := { fs with dirs := insertDir fs.dirs (parentOfStr dest) }
    match lookupFile fs1.files backupPathStr with
    | none => (false, fs1)
    | some fi => (true, { fs1 with files := setFile fs1.files dest fi })

/-- One iteration of the `cleanup_old_backups` loop body for entry `e`:
skip when the backup file does not exist or is new enough; otherwise
`unlink` (which fails for paths in `failSet`, logged and skipped),
remove the entry and count it.  `none` models the uncaught
`KeyError`/`TypeError` of `entry['backup_path']` on a malformed entry. -/
def cleanupStep (cutoff : Int) (failSet : List String)
    (st : List LedgerEntry × List (String × FileInfo) × Nat) (e : LedgerEntry) :
    Option (List LedgerEntry × List (String × FileInfo) × Nat) :=
  match entryStr e "backup_path" with
  | none => none
  | some bp =>
    match lookupFile st.2.1 bp with
    | none => some st
    | some fi =>
      if fi.mtime < cutoff then
        if bp ∈ failSet then some st
        else some (st.1.erase e, removeFile st.2.1 bp, st.2.2 + 1)
      else some st

/-- The loop `for entry in self.backup_metadata[:]`: iterate the
snapshot while the live ledger, the filesystem and the counter evolve. -/
def cleanupGo (cutoff : Int) (failSet : List String) :
    List LedgerEntry → List LedgerEntry × List (String × FileInfo) × Nat →
      Option (List LedgerEntry × List (String × FileInfo) × Nat)
  | [], st => some st
  | e :: rest, st =>
    match cleanupStep cutoff failSet st e with
    | none => none
    | some st' => cleanupGo cutoff failSet rest st'

/-- `BackupManager.cleanup_old_backups`: returns `0` untouched when
disabled (before any save), else runs the loop from the snapshot of the
ledger and then calls `_save_backup_metadata` once, rewriting the
ledger file with the pruned ledger (a failed write is caught and
logged; the model covers the successful write). -/
def cleanup_old_backups (bm : BackupManager) (fs : FS)
    (nowTs : Int) (maxAgeDays : Nat) (failSet : List String) :
    Option (BackupManager × FS × Nat) :=
  if ¬ bm.backup_enabled then some (bm, fs, 0)
  else
    let cutoff : Int := nowTs - (maxAgeDays * 24 * 3600 : Nat)
    match cleanupGo cutoff failSet bm.ledger (bm.ledger, fs.files, 0) with
    | none => none
    | some (ledger', files', cnt) =>
      some ({ bm with ledger := ledger' },
        { fs with files := files', ledgerFile := some ledger' }, cnt)

/-! ## Filesystem lookup lemmas -/

theorem lookupFile_removeFile_ne (p q : String) (h : q ≠ p) :
    ∀ files, lookupFile (removeFile files p) q = lookupFile files q := by
  intro files
  induction files with
  | nil => rfl
  | cons kv rest ih =>
    show lookupFile (List.filter _ (kv :: rest)) q = _
    rw [List.filter_cons]
    by_cases h1 : kv.1 = p
    · rw [if_neg (by simp [h1])]
      rw [show List.filter (fun kv => decide (kv.1 ≠ p)) rest = removeFile rest p from rfl,
        ih]
      conv_rhs => rw [lookupFile, List.find?_cons_of_neg rest (by simp [h1, Ne.symm h])]
      rfl
    · rw [if_pos (by simp [h1])]
      by_cases hq : kv.1 = q
      · rw [lookupFile, List.find?_cons_of_pos _ (by simp [hq]), lookupFile,
          List.find?_cons_of_pos _ (by simp [hq])]
      · rw [lookupFile, List.find?_cons_of_neg _ (by simp [hq]), lookupFile,
          List.find?_cons_of_neg _ (by simp [hq])]
        exact ih

theorem lookupFile_setFile (files : List (String × FileInfo)) (p q : String)
    (fi : FileInfo) :
    lookupFile (setFile files p fi) q =
      if q = p then some fi else lookupFile files q := by
  by_cases h : q = p
  · subst h
    rw [if_pos rfl, setFile, lookupFile, List.find?_cons_of_pos _ (by simp)]
    rfl
  · rw [if_neg h, setFile, lookupFile, List.find?_cons_of_neg _ (by simp [Ne.symm h])]
    exact lookupFile_removeFile_ne p q h files

/-! ## Claims about the backup store -/

/-- Computation of a successful restore: the ledger holds the original
path, the backup file exists; the destination's parent directory is
created and the content is copied over. -/
theorem restore_backup_ok (bm : BackupManager) (fs : FS) (bp : String)
    (restoreTo : Option String) (orig : String) (fi : FileInfo)
    (hget : getOriginalPath bm.ledger bp = .ok (some orig))
    (hfile : lookupFile fs.files bp = some fi) :
    restore_backup bm fs bp restoreTo =
      (true, ⟨setFile fs.files (restoreTo.getD orig) fi,
        insertDir fs.dirs (parentOfStr (restoreTo.getD orig)), fs.ledgerFile⟩) := by
  rw [restore_backup, hget]
  simp only [hfile]

/-- C8: `restore_backup` fails (returning `false`, filesystem
untouched) when no ledger entry records the backup path; with an entry
present and the backup file on disk, it copies the backup content to
the entry's original path (or the caller-supplied override), creating
the destination's parent directory, and leaves the ledger (both the
in-memory list and the ledger file, which restore never writes) and
the backup file in place, so a second identical restore also
succeeds. -/
theorem restore_backup_spec (bm : BackupManager) (fs : FS) (bp : String)
    (restoreTo : Option String) :
    (getOriginalPath bm.ledger bp = .ok none →
      restore_backup bm fs bp restoreTo = (false, fs)) ∧
    (∀ orig fi, getOriginalPath bm.ledger bp = .ok (some orig) →
      lookupFile fs.files bp = some fi →
      restore_backup bm fs bp restoreTo =
        (true, ⟨setFile fs.files (restoreTo.getD orig) fi,
          insertDir fs.dirs (parentOfStr (restoreTo.getD orig)),
          fs.ledgerFile⟩) ∧
      lookupFile (restore_backup bm fs bp restoreTo).2.files bp = some fi ∧
      lookupFile (restore_backup bm fs bp restoreTo).2.files
        (restoreTo.getD orig) = some fi ∧
      (restore_backup bm (restore_backup bm fs bp restoreTo).2 bp restoreTo).1 =
        true) := by
  constructor
  · intro hnone
    rw [restore_backup, hnone]
  · intro orig fi hget hfile
    have hok := restore_backup_ok bm fs bp restoreTo orig fi hget hfile
    have hbp : lookupFile (restore_backup bm fs bp restoreTo).2.files bp = some fi := by
      rw [hok]
      rw [lookupFile_setFile]
      by_cases hq : bp = restoreTo.getD orig
      · rw [if_pos hq]
      · rw [if_neg hq]
        exact hfile
    refine ⟨hok, hbp, ?_, ?_⟩
    · rw [hok, lookupFile_setFile, if_pos rfl]
    · have hok2 := restore_backup_ok bm (restore_backup bm fs bp restoreTo).2 bp
        restoreTo orig fi hget hbp
      rw [hok2]

/-- Witness for C8 at a concrete ledger and filesystem. -/
theorem restore_backup_spec_witness :
    restore_backup
        ⟨"backups", true,
          [[("original_path", JValue.str "song.mp3"),
            ("backup_path", JValue.str "b1")]]⟩
        ⟨[("b1", ⟨5, 10, 0⟩)], [], none⟩ "b1" none =
      (true, ⟨setFile [("b1", ⟨5, 10, 0⟩)] "song.mp3" ⟨5, 10, 0⟩,
        insertDir [] (parentOfStr "song.mp3"), none⟩) ∧
    restore_backup
        ⟨"backups", true,
          [[("original_path", JValue.str "x")]]⟩
        ⟨[], [], none⟩ "b1" none = (false, ⟨[], [], none⟩) := by
  constructor
  · exact ((restore_backup_spec
      ⟨"backups", true,
        [[("original_path", JValue.str "song.mp3"),
          ("backup_path", JValue.str "b1")]]⟩
      ⟨[("b1", ⟨5, 10, 0⟩)], [], none⟩ "b1" none).2 "song.mp3" ⟨5, 10, 0⟩
      rfl rfl).1
  · exact (restore_backup_spec
      ⟨"backups", true, [[("original_path", JValue.str "x")]]⟩
      ⟨[], [], none⟩ "b1" none).1 rfl

/-- C9 counterexample: constructing the manager with backups enabled
already creates the backup directory, before any operation is invoked —
creation is eager at construction time, not lazy on first use. -/
theorem backup_dir_created_at_construction_cex :
    (bmInit "./backups" true ⟨[], [], none⟩).2 ≠ (⟨[], [], none⟩ : FS) ∧
    (bmInit "./backups" true ⟨[], [], none⟩).2.dirs = ["./backups"] := by decide

/-- C10 counterexample: the appended ledger entry's digest field is
named `file_hash`, not `content_hash`, and the stored paths are the
verbatim strings as passed (here a relative path), not absolute. -/
theorem ledger_entry_field_names_cex :
    (create_backup ⟨"backups", true, []⟩ ⟨[("song.mp3", ⟨7, 123, 50⟩)], [], none⟩
        ⟨"20240101_000000", "2024-01-01T00:00:00"⟩ (fun _ => some "h7")
        ⟨[], "song.mp3"⟩).2.1.ledger =
      [[("original_path", JValue.str "song.mp3"),
        ("backup_path", JValue.str "backups/song_20240101_000000.mp3"),
        ("created_at", JValue.str "2024-01-01T00:00:00"),
        ("file_size", JValue.num 123),
        ("file_hash", JValue.str "h7")]] ∧
    jLookup [("original_path", JValue.str "song.mp3"),
        ("backup_path", JValue.str "backups/song_20240101_000000.mp3"),
        ("created_at", JValue.str "2024-01-01T00:00:00"),
        ("file_size", JValue.num 123),
        ("file_hash", JValue.str "h7")] "content_hash" = none ∧
    ¬ ("song.mp3" : String).data.head? = some '/' :=
  ⟨rfl, rfl, by decide⟩

/-- Computation of a successful `create_backup`: the appended entry,
the backup copy, and the ledger file rewritten with the appended list. -/
theorem create_backup_ok (bm : BackupManager) (fs : FS)
    (now : Timestamp) (hashFn : Nat → Option String) (p : PyPath) (fi : FileInfo)
    (hen : bm.backup_enabled = true)
    (hfile : lookupFile fs.files p.render = some fi) :
    create_backup bm fs now hashFn p =
      (some (joinPath bm.backup_dir (p.stem ++ "_" ++ now.stamp ++ p.suffix)),
       { bm with ledger := bm.ledger ++
          [[("original_path", JValue.str p.render),
            ("backup_path", JValue.str
              (joinPath bm.backup_dir (p.stem ++ "_" ++ now.stamp ++ p.suffix))),
            ("created_at", JValue.str now.iso),
            ("file_size", JValue.num fi.size),
            ("file_hash",
              match hashFn fi.content with
              | some h => JValue.str h
              | none => JValue.null)]] },
       { fs with
          files := (setFile fs.files
            (joinPath bm.backup_dir (p.stem ++ "_" ++ now.stamp ++ p.suffix)) fi),
          ledgerFile := (some (bm.ledger ++
            [[("original_path", JValue.str p.render),
              ("backup_path", JValue.str
                (joinPath bm.backup_dir (p.stem ++ "_" ++ now.stamp ++ p.suffix))),
              ("created_at", JValue.str now.iso),
              ("file_size", JValue.num fi.size),
              ("file_hash",
                match hashFn fi.content with
                | some h => JValue.str h
                | none => JValue.null)]])) }) := by
  rw [create_backup, if_neg (by simp [hen])]
  simp only [hfile, addBackupEntry, lookupFile_setFile, ite_self]

/-- C10 (amended): every successful `create_backup` appends exactly one
ledger entry whose fields are exactly `original_path` and `backup_path`
(the verbatim path strings as passed, not resolved to absolute),
`created_at` (the ISO timestamp), `file_size` (the original file's
size in bytes), and `file_hash` — not `content_hash` — holding the MD5
hex digest of the original file's content at backup time, or JSON
`null` when hashing fails; the ledger file is rewritten with the
appended list. -/
theorem create_backup_entry_fields (bm : BackupManager) (fs : FS)
    (now : Timestamp) (hashFn : Nat → Option String) (p : PyPath) (fi : FileInfo)
    (hen : bm.backup_enabled = true)
    (hfile : lookupFile fs.files p.render = some fi) :
    create_backup bm fs now hashFn p =
      (some (joinPath bm.backup_dir (p.stem ++ "_" ++ now.stamp ++ p.suffix)),
       { bm with ledger := bm.ledger ++
          [[("original_path", JValue.str p.render),
            ("backup_path", JValue.str
              (joinPath bm.backup_dir (p.stem ++ "_" ++ now.stamp ++ p.suffix))),
            ("created_at", JValue.str now.iso),
            ("file_size", JValue.num fi.size),
            ("file_hash",
              match hashFn fi.content with
              | some h => JValue.str h
              | none => JValue.null)]] },
       { fs with
          files := (setFile fs.files
            (joinPath bm.backup_dir (p.stem ++ "_" ++ now.stamp ++ p.suffix)) fi),
          ledgerFile := (some (bm.ledger ++
            [[("original_path", JValue.str p.render),
              ("backup_path", JValue.str
                (joinPath bm.backup_dir (p.stem ++ "_" ++ now.stamp ++ p.suffix))),
              ("created_at", JValue.str now.iso),
              ("file_size", JValue.num fi.size),
              ("file_hash",
                match hashFn fi.content with
                | some h => JValue.str h
                | none => JValue.null)]])) }) :=
  create_backup_ok bm fs now hashFn p fi hen hfile

/-- Witness for the amended C10, exercising the `null` digest case. -/
theorem create_backup_entry_fields_witness :
    create_backup ⟨"bk", true, []⟩ ⟨[("a.flac", ⟨9, 42, 0⟩)], [], none⟩
        ⟨"20250101_120000", "2025-01-01T12:00:00"⟩ (fun _ => none)
        ⟨[], "a.flac"⟩ =
      (some "bk/a_20250101_120000.flac",
       ⟨"bk", true,
        [[("original_path", JValue.str "a.flac"),
          ("backup_path", JValue.str "bk/a_20250101_120000.flac"),
          ("created_at", JValue.str "2025-01-01T12:00:00"),
          ("file_size", JValue.num 42),
          ("file_hash", JValue.null)]]⟩,
       ⟨setFile [("a.flac", ⟨9, 42, 0⟩)] "bk/a_20250101_120000.flac" ⟨9, 42, 0⟩,
        [],
        some [[("original_path", JValue.str "a.flac"),
          ("backup_path", JValue.str "bk/a_20250101_120000.flac"),
          ("created_at", JValue.str "2025-01-01T12:00:00"),
          ("file_size", JValue.num 42),
          ("file_hash", JValue.null)]]⟩) :=
  (create_backup_entry_fields ⟨"bk", true, []⟩ ⟨[("a.flac", ⟨9, 42, 0⟩)], [], none⟩
    ⟨"20250101_120000", "2025-01-01T12:00:00"⟩ (fun _ => none) ⟨[], "a.flac"⟩
    ⟨9, 42, 0⟩ rfl rfl).trans (by rfl)

/-- Whether the cleanup loop removes entry `e`: its backup file exists
(in the reference filesystem), is older than the cutoff, and its
`unlink` succeeds. -/
def entryOldRemovable (files : List (String × FileInfo)) (failSet : List String)
    (cutoff : Int) (e : LedgerEntry) : Bool :=
  match entryStr e "backup_path" with
  | none => false
  | some bp =>
    match lookupFile files bp with
    | none => false
    | some fi => decide (fi.mtime < cutoff) && decide (bp ∉ failSet)

/-- The cleanup loop, on a snapshot whose entries are well-formed and
whose backup paths are pairwise distinct, removes exactly the
`entryOldRemovable` entries, deletes exactly their files, and counts
them. -/
theorem cleanupGo_spec (cutoff : Int) (failSet : List String)
    (files : List (String × FileInfo)) :
    ∀ (todo : List LedgerEntry) (curLedger : List LedgerEntry)
      (curFiles : List (String × FileInfo)) (cnt : Nat),
      (∀ e ∈ todo, (entryStr e "backup_path").isSome) →
      (todo.map (fun e => entryStr e "backup_path")).Nodup →
      (∀ e ∈ todo, ∀ bp, entryStr e "backup_path" = some bp →
        lookupFile curFiles bp = lookupFile files bp) →
      cleanupGo cutoff failSet todo (curLedger, curFiles, cnt) =
        some
          ((todo.filter (entryOldRemovable files failSet cutoff)).foldl
              List.erase curLedger,
            (todo.filter (entryOldRemovable files failSet cutoff)).foldl
              (fun fsf e => removeFile fsf ((entryStr e "backup_path").getD ""))
              curFiles,
            cnt + (todo.filter (entryOldRemovable files failSet cutoff)).length) := by
  intro todo
  induction todo with
  | nil =>
    intro curLedger curFiles cnt _ _ _
    simp [cleanupGo]
  | cons e rest ih =>
    intro curLedger curFiles cnt hwf hnd hagree
    obtain ⟨bp, hbp⟩ := Option.isSome_iff_exists.mp (hwf e (by simp))
    have hagree_e := hagree e (by simp) bp hbp
    have hwf' : ∀ e' ∈ rest, (entryStr e' "backup_path").isSome :=
      fun e' he' => hwf e' (List.mem_cons_of_mem _ he')
    rw [List.map_cons, List.nodup_cons] at hnd
    have hnd' : (rest.map (fun e => entryStr e "backup_path")).Nodup := hnd.2
    have hbp_not : some bp ∉ rest.map (fun e => entryStr e "backup_path") := by
      rw [← hbp]
      exact hnd.1
    cases hlook : lookupFile files bp with
    | none =>
      have hcur : lookupFile curFiles bp = none := by rw [hagree_e, hlook]
      have hrem : entryOldRemovable files failSet cutoff e = false := by
        simp only [entryOldRemovable, hbp, hlook]
      rw [cleanupGo]
      simp only [cleanupStep, hbp, hcur]
      rw [List.filter_cons_of_neg (by simp [hrem])]
      exact ih curLedger curFiles cnt hwf' hnd'
        (fun e' he' bp' hbp' => hagree e' (List.mem_cons_of_mem _ he') bp' hbp')
    | some fi =>
      have hcur : lookupFile curFiles bp = some fi := by rw [hagree_e, hlook]
      by_cases hold : fi.mtime < cutoff
      · by_cases hfail : bp ∈ failSet
        · have hrem : entryOldRemovable files failSet cutoff e = false := by
            simp only [entryOldRemovable, hbp, hlook]
            simp [hfail]
          rw [cleanupGo]
          simp only [cleanupStep, hbp, hcur, if_pos hold, if_pos hfail]
          rw [List.filter_cons_of_neg (by simp [hrem])]
          exact ih curLedger curFiles cnt hwf' hnd'
            (fun e' he' bp' hbp' => hagree e' (List.mem_cons_of_mem _ he') bp' hbp')
        · have hrem : entryOldRemovable files failSet cutoff e = true := by
            simp only [entryOldRemovable, hbp, hlook]
            simp [hold, hfail]
          have hagree' : ∀ e' ∈ rest, ∀ bp', entryStr e' "backup_path" = some bp' →
              lookupFile (removeFile curFiles bp) bp' = lookupFile files bp' := by
            intro e' he' bp' hbp'
            have hne : bp' ≠ bp := by
              intro hc
              subst hc
              exact hbp_not (by
                rw [← hbp']
                exact List.mem_map_of_mem _ he')
            rw [lookupFile_removeFile_ne bp bp' hne curFiles]
            exact hagree e' (List.mem_cons_of_mem _ he') bp' hbp'
          rw [cleanupGo]
          simp only [cleanupStep, hbp, hcur, if_pos hold, if_neg hfail]
          rw [List.filter_cons_of_pos (by simp [hrem])]
          rw [List.foldl_cons, List.foldl_cons]
          rw [ih (curLedger.erase e) (removeFile curFiles bp) (cnt + 1) hwf' hnd'
            (by
              intro e' he' bp' hbp'
              exact hagree' e' he' bp' hbp')]
          rw [hbp]
          simp only [Option.getD_some, List.length_cons]
          simp [Nat.add_comm, Nat.add_assoc, Nat.add_left_comm]
      · have hrem : entryOldRemovable files failSet cutoff e = false := by
          simp only [entryOldRemovable, hbp, hlook]
          simp [hold]
        rw [cleanupGo]
        simp only [cleanupStep, hbp, hcur, if_neg hold]
        rw [List.filter_cons_of_neg (by simp [hrem])]
        exact ih curLedger curFiles cnt hwf' hnd'
          (fun e' he' bp' hbp' => hagree e' (List.mem_cons_of_mem _ he') bp' hbp')

/-- Computation of an enabled `cleanup_old_backups` run on a
well-formed ledger: exactly the `entryOldRemovable` entries are erased
and their files deleted, the count is their number, and the pruned
ledger is persisted to the ledger file. -/
theorem cleanup_old_backups_run (bm : BackupManager) (fs : FS)
    (nowTs : Int) (maxAgeDays : Nat) (failSet : List String)
    (hen : bm.backup_enabled = true)
    (hwf : ∀ e ∈ bm.ledger, (entryStr e "backup_path").isSome)
    (hnd : (bm.ledger.map (fun e => entryStr e "backup_path")).Nodup) :
    cleanup_old_backups bm fs nowTs maxAgeDays failSet =
      some
        ({ bm with ledger :=
            ((bm.ledger.filter (entryOldRemovable fs.files failSet
                (nowTs - (maxAgeDays * 24 * 3600 : Nat)))).foldl
              List.erase bm.ledger) },
          { fs with
            files := ((bm.ledger.filter (entryOldRemovable fs.files failSet
                (nowTs - (maxAgeDays * 24 * 3600 : Nat)))).foldl
              (fun fsf e => removeFile fsf ((entryStr e "backup_path").getD ""))
              fs.files),
            ledgerFile := (some
              ((bm.ledger.filter (entryOldRemovable fs.files failSet
                  (nowTs - (maxAgeDays * 24 * 3600 : Nat)))).foldl
                List.erase bm.ledger)) },
          (bm.ledger.filter (entryOldRemovable fs.files failSet
              (nowTs - (maxAgeDays * 24 * 3600 : Nat)))).length) := by
  rw [cleanup_old_backups, if_neg (by simp [hen])]
  dsimp only
  rw [cleanupGo_spec (nowTs - (maxAgeDays * 24 * 3600 : Nat)) failSet fs.files
    bm.ledger bm.ledger fs.files 0 hwf hnd (fun _ _ _ _ => rfl)]
  simp

/-- C3 (amended): for a well-formed ledger (every entry has a string
`backup_path`, all distinct), `cleanup_old_backups` removes exactly the
entries whose backup file exists with modification time strictly older
than the cutoff and whose deletion succeeds, deletes exactly those
files, returns their number, and persists the pruned ledger to the
ledger file.  Consequently an entry whose backup file is missing, or
whose deletion fails, remains in the ledger — a remaining entry's file
need not exist on disk nor be newer than the cutoff. -/
theorem cleanup_old_backups_spec (bm : BackupManager) (fs : FS)
    (nowTs : Int) (maxAgeDays : Nat) (failSet : List String)
    (hen : bm.backup_enabled = true)
    (hwf : ∀ e ∈ bm.ledger, (entryStr e "backup_path").isSome)
    (hnd : (bm.ledger.map (fun e => entryStr e "backup_path")).Nodup) :
    cleanup_old_backups bm fs nowTs maxAgeDays failSet =
      some
        ({ bm with ledger :=
            ((bm.ledger.filter (entryOldRemovable fs.files failSet
                (nowTs - (maxAgeDays * 24 * 3600 : Nat)))).foldl
              List.erase bm.ledger) },
          { fs with
            files := ((bm.ledger.filter (entryOldRemovable fs.files failSet
                (nowTs - (maxAgeDays * 24 * 3600 : Nat)))).foldl
              (fun fsf e => removeFile fsf ((entryStr e "backup_path").getD ""))
              fs.files),
            ledgerFile := (some
              ((bm.ledger.filter (entryOldRemovable fs.files failSet
                  (nowTs - (maxAgeDays * 24 * 3600 : Nat)))).foldl
                List.erase bm.ledger)) },
          (bm.ledger.filter (entryOldRemovable fs.files failSet
              (nowTs - (maxAgeDays * 24 * 3600 : Nat)))).length) :=
  cleanup_old_backups_run bm fs nowTs maxAgeDays failSet hen hwf hnd

/-- Witness for the amended C3: of two well-formed entries, the stale
one is removed (file deleted, counted once), the fresh one is kept,
and the pruned ledger is written to the ledger file. -/
theorem cleanup_old_backups_spec_witness :
    cleanup_old_backups
        ⟨"backups", true,
          [[("backup_path", JValue.str "b1")], [("backup_path", JValue.str "b2")]]⟩
        ⟨[("b1", ⟨1, 10, 0⟩), ("b2", ⟨2, 20, 500⟩)], [], none⟩ 86500 1 [] =
      some (⟨"backups", true, [[("backup_path", JValue.str "b2")]]⟩,
        ⟨[("b2", ⟨2, 20, 500⟩)], [], some [[("backup_path", JValue.str "b2")]]⟩,
        1) :=
  (cleanup_old_backups_spec
    ⟨"backups", true,
      [[("backup_path", JValue.str "b1")], [("backup_path", JValue.str "b2")]]⟩
    ⟨[("b1", ⟨1, 10, 0⟩), ("b2", ⟨2, 20, 500⟩)], [], none⟩ 86500 1 [] rfl
    (by decide) (by decide)).trans (by decide)

/-- C3 counterexample: a ledger entry whose backup file does not exist
survives `cleanup_old_backups` untouched, so after cleanup not every
remaining entry refers to an existing backup file newer than the
cutoff; the returned count is 0. -/
theorem cleanup_missing_backup_file_cex :
    cleanup_old_backups
        ⟨"backups", true, [[("backup_path", JValue.str "backups/b.mp3")]]⟩
        ⟨[], [], none⟩ 1000000 0 [] =
      some (⟨"backups", true, [[("backup_path", JValue.str "backups/b.mp3")]]⟩,
        ⟨[], [], some [[("backup_path", JValue.str "backups/b.mp3")]]⟩, 0) ∧
    lookupFile [] "backups/b.mp3" = none :=
  ⟨rfl, rfl⟩

/-- C9 (amended): with backups disabled, `create_backup` is a no-op
returning `none` for every input and `cleanup_old_backups` removes
nothing; neither construction nor these operations touches any
directory or writes the ledger file (the state, including
`ledgerFile`, is returned unchanged).  With backups enabled,
construction creates the backup directory eagerly — not lazily — while
leaving the files and the ledger file untouched: the ledger file is
only written by the mutating operations, a successful `create_backup`
or an enabled `cleanup_old_backups`, each of which rewrites it with
the new in-memory ledger. -/
theorem backup_store_disabled_and_eager_dir (bm : BackupManager) (fs : FS)
    (bd : String) (hdis : bm.backup_enabled = false) :
    (∀ now hashFn p, create_backup bm fs now hashFn p = (none, bm, fs)) ∧
    (∀ fs2 nowTs maxAge failSet,
      cleanup_old_backups bm fs2 nowTs maxAge failSet = some (bm, fs2, 0)) ∧
    (bmInit bd false fs).2 = fs ∧
    (bmInit bd true fs).2 = { fs with dirs := insertDir fs.dirs bd } ∧
    (∀ (bm2 : BackupManager) (fs2 : FS) now hashFn p fi,
      bm2.backup_enabled = true → lookupFile fs2.files p.render = some fi →
      ∃ bp bmr fsr, create_backup bm2 fs2 now hashFn p = (some bp, bmr, fsr) ∧
        fsr.ledgerFile = some bmr.ledger) ∧
    (∀ (bm2 : BackupManager) (fs2 : FS) nowTs maxAge failSet,
      bm2.backup_enabled = true →
      (∀ e ∈ bm2.ledger, (entryStr e "backup_path").isSome) →
      (bm2.ledger.map (fun e => entryStr e "backup_path")).Nodup →
      ∃ bmr fsr cnt,
        cleanup_old_backups bm2 fs2 nowTs maxAge failSet = some (bmr, fsr, cnt) ∧
        fsr.ledgerFile = some bmr.ledger) := by
  refine ⟨?_, ?_, rfl, rfl, ?_, ?_⟩
  · intro now hashFn p
    rw [create_backup, hdis]
    rfl
  · intro fs2 nowTs maxAge failSet
    rw [cleanup_old_backups, hdis]
    rfl
  · intro bm2 fs2 now hashFn p fi hen hfile
    exact ⟨_, _, _, create_backup_ok bm2 fs2 now hashFn p fi hen hfile, rfl⟩
  · intro bm2 fs2 nowTs maxAge failSet hen hwf hnd
    exact ⟨_, _, _,
      cleanup_old_backups_run bm2 fs2 nowTs maxAge failSet hen hwf hnd, rfl⟩

/-- Witness for the amended C9: a disabled `create_backup` leaves
everything (ledger file included) unchanged; enabled construction adds
only the backup directory; an enabled `create_backup` writes the
ledger file with its new in-memory ledger. -/
theorem backup_store_disabled_and_eager_dir_witness :
    create_backup ⟨"bk", false, []⟩ ⟨[("a.mp3", ⟨1, 2, 3⟩)], [], none⟩
        ⟨"20240101_000000", "2024-01-01T00:00:00"⟩ (fun _ => none)
        ⟨[], "a.mp3"⟩ =
      (none, ⟨"bk", false, []⟩, ⟨[("a.mp3", ⟨1, 2, 3⟩)], [], none⟩) ∧
    (bmInit "bk" true ⟨[("a.mp3", ⟨1, 2, 3⟩)], [], none⟩).2 =
      ⟨[("a.mp3", ⟨1, 2, 3⟩)], ["bk"], none⟩ ∧
    (create_backup ⟨"bk2", true, []⟩ ⟨[("a.mp3", ⟨1, 2, 3⟩)], ["bk2"], none⟩
        ⟨"20240101_000000", "2024-01-01T00:00:00"⟩ (fun _ => none)
        ⟨[], "a.mp3"⟩).2.2.ledgerFile =
      some (create_backup ⟨"bk2", true, []⟩ ⟨[("a.mp3", ⟨1, 2, 3⟩)], ["bk2"], none⟩
        ⟨"20240101_000000", "2024-01-01T00:00:00"⟩ (fun _ => none)
        ⟨[], "a.mp3"⟩).2.1.ledger := by
  refine ⟨?_, ?_, ?_⟩
  · exact (backup_store_disabled_and_eager_dir ⟨"bk", false, []⟩
      ⟨[("a.mp3", ⟨1, 2, 3⟩)], [], none⟩ "bk" rfl).1
      ⟨"20240101_000000", "2024-01-01T00:00:00"⟩ (fun _ => none) ⟨[], "a.mp3"⟩
  · exact ((backup_store_disabled_and_eager_dir ⟨"bk", false, []⟩
      ⟨[("a.mp3", ⟨1, 2, 3⟩)], [], none⟩ "bk" rfl).2.2.2.1).trans (by decide)
  · obtain ⟨bp, bmr, fsr, heq, hlf⟩ :=
      (backup_store_disabled_and_eager_dir ⟨"bk", false, []⟩
        ⟨[("a.mp3", ⟨1, 2, 3⟩)], [], none⟩ "bk" rfl).2.2.2.2.1
        ⟨"bk2", true, []⟩ ⟨[("a.mp3", ⟨1, 2, 3⟩)], ["bk2"], none⟩
        ⟨"20240101_000000", "2024-01-01T00:00:00"⟩ (fun _ => none)
        ⟨[], "a.mp3"⟩ ⟨1, 2, 3⟩ rfl rfl
    rw [heq]
    exact hlf

end MediaManager
